import Mathlib

/-!
Verification of the layered compile-time configuration resolver that the
repository specifies, together with an embedding of the concrete site
override header `src/PJSIP2/pj/config_site.h`.

The repository ships a single declarative header; the resolver itself
(registerLayer, resolve, get, ResolvedConfiguration) is described only by
the specification, so its definitions below are modelled from the spec.
The preprocessor-level model of the concrete header (include guard,
undef/define pairs) is translated from the source file.
-/

namespace ConfigResolver

/-- Modelled from the spec: a flag value is one of boolean, integer, or
enumerated symbol (spec section 3, Flag attributes). -/
inductive FlagValue where
  | boolVal : Bool → FlagValue
  | intVal : Int → FlagValue
  | symVal : String → FlagValue
deriving DecidableEq, Repr

/-- Modelled from the spec: truthiness of a flag value, used by the
exclusivity validation (both flags "set to truthy values"). -/
def truthy : FlagValue → Bool
  | .boolVal b => b
  | .intVal i => decide (i ≠ 0)
  | .symVal _ => true

/-- Modelled from the spec: one flag assignment inside a layer, carrying
the per-flag undef-before-set marker (spec section 3, Layer). -/
structure Assignment where
  flag : String
  value : FlagValue
  undefBeforeSet : Bool
deriving DecidableEq, Repr

/-- Modelled from the spec: a Layer is a layer identity plus an ordered
set of flag assignments (spec section 3, Layer). -/
structure Layer where
  name : String
  assignments : List Assignment
deriving DecidableEq, Repr

/-- Modelled from the spec: the error taxonomy of section 7. -/
inductive ConfigError where
  | DuplicatePriority : ConfigError
  | ConflictingAssignment : ConfigError
  | UnknownFlag : ConfigError
deriving DecidableEq, Repr

/-- Modelled from the spec: one resolved flag entry: name, final value,
and the source layer that last set it (spec section 3, Flag). -/
structure Entry where
  flag : String
  value : FlagValue
  source : String
deriving DecidableEq, Repr

/-- A ResolvedConfiguration: mapping from flag name to final value with
the winning source layer recorded per entry. -/
abbrev Config := List Entry

/-- A resolution session: the layers registered so far, each with its
integer priority. -/
abbrev Session := List (Layer × Int)

/-- Modelled from the spec: registerLayer(layer, priority) queues a layer
for resolution and fails with DuplicatePriority if two layers share a
priority (spec section 4.1). -/
def registerLayer (ss : Session) (l : Layer) (p : Int) :
    Except ConfigError Session :=
  if ss.any (fun e => e.2 == p) then .error .DuplicatePriority
  else .ok (ss ++ [(l, p)])

/-- Remove every entry for flag `f` from a configuration (the effect of
the undef-before-set marker clearing any prior value). -/
def clearFlag : Config → String → Config
  | [], _ => []
  | e :: rest, f =>
    if e.flag = f then clearFlag rest f else e :: clearFlag rest f

/-- Look up the entry for a flag name in a configuration. -/
def lookupEntry : Config → String → Option Entry
  | [], _ => none
  | e :: rest, f => if e.flag = f then some e else lookupEntry rest f

/-- Modelled from the spec: apply a single flag assignment of a layer.
If the assignment marks undef-before-set, any existing value for that
flag is cleared first; the flag is then set to the layer value, recording
this layer as the winning source (spec section 4.1, resolve). -/
def applyAssignment (cfg : Config) (src : String) (a : Assignment) : Config :=
  let cfg1 := if a.undefBeforeSet then clearFlag cfg a.flag else cfg
  clearFlag cfg1 a.flag ++ [⟨a.flag, a.value, src⟩]

/-- Apply every assignment of a layer, in order. -/
def applyLayer (cfg : Config) (l : Layer) : Config :=
  l.assignments.foldl (fun c a => applyAssignment c l.name a) cfg

/-- Apply an ordered list of layers, in order. -/
def applyLayers (cfg : Config) (ls : List Layer) : Config :=
  ls.foldl applyLayer cfg

/-- Ascending-priority order on registered layers. -/
def priLE (a b : Layer × Int) : Prop := a.2 ≤ b.2

instance : DecidableRel priLE := fun a b => inferInstanceAs (Decidable (a.2 ≤ b.2))

instance : IsTotal (Layer × Int) priLE := ⟨fun a b => le_total a.2 b.2⟩

instance : IsTrans (Layer × Int) priLE := ⟨fun _ _ _ h1 h2 => le_trans h1 h2⟩

/-- Sort a session into ascending priority order. -/
def sortSession (ss : Session) : Session :=
  List.insertionSort priLE ss

/-- Both flags of a mutually-exclusive pair are set to truthy values. -/
def bothTruthy (cfg : Config) (p : String × String) : Bool :=
  match lookupEntry cfg p.1, lookupEntry cfg p.2 with
  | some e1, some e2 => truthy e1.value && truthy e2.value
  | _, _ => false

/-- The structural exclusivity validation pass: some declared
mutually-exclusive pair has both flags truthy. -/
def hasConflict (excl : List (String × String)) (cfg : Config) : Bool :=
  excl.any (bothTruthy cfg)

/-- The configuration obtained by applying all registered layers in
ascending priority order, before validation. -/
def finalConfig (ss : Session) : Config :=
  applyLayers [] ((sortSession ss).map Prod.fst)

/-- Modelled from the spec: resolve applies layers in ascending priority
order (last-writer-wins merge), then runs the exclusivity validation pass
once at the end; on conflict it fails with ConflictingAssignment and
returns no configuration (spec section 4.1). `excl` lists the pairs of
flags declared mutually exclusive. -/
def resolve (excl : List (String × String)) (ss : Session) :
    Except ConfigError Config :=
  let cfg := finalConfig ss
  if hasConflict excl cfg then .error .ConflictingAssignment
  else .ok cfg

/-- Modelled from the spec: get(flagName) on a ResolvedConfiguration
returns the value, or the documented default when one exists, and fails
with UnknownFlag if no layer ever defined it and no default exists
(spec section 4.1, get). -/
def getFlag (defaults : List (String × FlagValue)) (cfg : Config)
    (f : String) : Except ConfigError FlagValue :=
  match lookupEntry cfg f with
  | some e => .ok e.value
  | none =>
    match defaults.find? (fun d => d.1 == f) with
    | some d => .ok d.2
    | none => .error .UnknownFlag

/-- The last assignment to flag `f` in an ordered assignment list, the
one whose value the layer contributes for `f`. -/
def lastAssign (f : String) : List Assignment → Option Assignment
  | [] => none
  | a :: rest =>
    match lastAssign f rest with
    | some r => some r
    | none => if a.flag = f then some a else none

/-- The assignment a layer contributes for flag `f`, if any. -/
def layerAssign (l : Layer) (f : String) : Option Assignment :=
  lastAssign f l.assignments

/-- The winning (value, source-layer-name) for flag `f` over an ordered
layer list: the contribution of the last layer assigning `f`. -/
def winner (f : String) : List Layer → Option (FlagValue × String)
  | [] => none
  | l :: rest =>
    match winner f rest with
    | some r => some r
    | none => (layerAssign l f).map (fun a => (a.value, l.name))

theorem lookup_clear_self (cfg : Config) (f : String) :
    lookupEntry (clearFlag cfg f) f = none := by
  induction cfg with
  | nil => rfl
  | cons e rest ih =>
    by_cases h : e.flag = f
    · simp [clearFlag, h, ih]
    · simp [clearFlag, lookupEntry, h, ih]

theorem lookup_clear_ne (cfg : Config) (f g : String) (h : f ≠ g) :
    lookupEntry (clearFlag cfg g) f = lookupEntry cfg f := by
  induction cfg with
  | nil => rfl
  | cons e rest ih =>
    by_cases he : e.flag = g
    · have hef : e.flag ≠ f := by rw [he]; exact fun hh => h hh.symm
      simp [clearFlag, lookupEntry, he, hef, ih, Ne.symm h]
    · by_cases hef : e.flag = f
      · simp [clearFlag, lookupEntry, he, hef, h]
      · simp [clearFlag, lookupEntry, he, hef, ih]

theorem lookup_append (c1 c2 : Config) (f : String) :
    lookupEntry (c1 ++ c2) f =
      match lookupEntry c1 f with
      | some e => some e
      | none => lookupEntry c2 f := by
  induction c1 with
  | nil => rfl
  | cons e rest ih =>
    by_cases h : e.flag = f
    · simp [lookupEntry, h]
    · simpa [lookupEntry, h] using ih

theorem clear_clear (cfg : Config) (f : String) :
    clearFlag (clearFlag cfg f) f = clearFlag cfg f := by
  induction cfg with
  | nil => rfl
  | cons e rest ih =>
    by_cases h : e.flag = f
    · simp [clearFlag, h, ih]
    · simp [clearFlag, h, ih]

theorem lookup_applyAssignment (cfg : Config) (src : String) (a : Assignment)
    (f : String) :
    lookupEntry (applyAssignment cfg src a) f =
      if a.flag = f then some ⟨a.flag, a.value, src⟩ else lookupEntry cfg f := by
  have hbase : ∀ c : Config,
      lookupEntry (clearFlag c a.flag ++ [⟨a.flag, a.value, src⟩]) f =
        if a.flag = f then some ⟨a.flag, a.value, src⟩
        else lookupEntry c f := by
    intro c
    by_cases h : a.flag = f
    · subst h
      rw [lookup_append, lookup_clear_self]
      simp [lookupEntry, List.find?]
    · have hne : f ≠ a.flag := fun hh => h hh.symm
      rw [lookup_append, lookup_clear_ne c f a.flag hne]
      cases hl : lookupEntry c f with
      | some e => simp [h]
      | none => simp [lookupEntry, h]
  simp only [applyAssignment]
  by_cases hu : a.undefBeforeSet
  · rw [if_pos hu, clear_clear]
    exact hbase cfg
  · rw [if_neg hu]
    exact hbase cfg

theorem lastAssign_flag (f : String) (as : List Assignment) (a : Assignment)
    (h : lastAssign f as = some a) : a.flag = f := by
  induction as with
  | nil => simp [lastAssign] at h
  | cons b rest ih =>
    simp only [lastAssign] at h
    cases hr : lastAssign f rest with
    | some r =>
      rw [hr] at h
      injection h with h
      exact ih (h ▸ hr)
    | none =>
      rw [hr] at h
      by_cases hb : b.flag = f
      · rw [if_pos hb] at h
        injection h with h
        rw [← h]
        exact hb
      · rw [if_neg hb] at h
        exact absurd h (by simp)

theorem lookup_applyAssigns (cfg : Config) (src : String)
    (as : List Assignment) (f : String) :
    lookupEntry (as.foldl (fun c a => applyAssignment c src a) cfg) f =
      match lastAssign f as with
      | some a => some ⟨f, a.value, src⟩
      | none => lookupEntry cfg f := by
  induction as generalizing cfg with
  | nil => rfl
  | cons a rest ih =>
    simp only [List.foldl_cons]
    rw [ih (applyAssignment cfg src a)]
    simp only [lastAssign]
    cases hr : lastAssign f rest with
    | some r => rfl
    | none =>
      simp only
      rw [lookup_applyAssignment]
      by_cases h : a.flag = f
      · simp [h]
      · simp [h]

theorem lookup_applyLayer (cfg : Config) (l : Layer) (f : String) :
    lookupEntry (applyLayer cfg l) f =
      match layerAssign l f with
      | some a => some ⟨f, a.value, l.name⟩
      | none => lookupEntry cfg f := by
  unfold applyLayer layerAssign
  exact lookup_applyAssigns cfg l.name l.assignments f

theorem lookup_applyLayers (cfg : Config) (ls : List Layer) (f : String) :
    lookupEntry (applyLayers cfg ls) f =
      match winner f ls with
      | some r => some ⟨f, r.1, r.2⟩
      | none => lookupEntry cfg f := by
  induction ls generalizing cfg with
  | nil => rfl
  | cons l rest ih =>
    simp only [applyLayers, List.foldl_cons]
    have : (rest.foldl applyLayer (applyLayer cfg l)) =
        applyLayers (applyLayer cfg l) rest := rfl
    rw [this, ih (applyLayer cfg l)]
    simp only [winner]
    cases hr : winner f rest with
    | some r => rfl
    | none =>
      simp only
      rw [lookup_applyLayer]
      cases hl : layerAssign l f with
      | some a => simp
      | none => simp

theorem winner_append (f : String) (as bs : List Layer) :
    winner f (as ++ bs) =
      match winner f bs with
      | some r => some r
      | none => winner f as := by
  induction as with
  | nil =>
    cases h : winner f bs with
    | some r => simp [h]
    | none => simp [h, winner]
  | cons l rest ih =>
    cases h : winner f bs with
    | some r => simp [winner, ih, h]
    | none => simp [winner, ih, h]

theorem winner_absorb (f : String) (l2 : Layer) (a : Assignment)
    (ls : List Layer)
    (h : ∀ l ∈ ls, layerAssign l f = none ∨
      (l.name = l2.name ∧ layerAssign l f = some a)) :
    winner f ls = none ∨ winner f ls = some (a.value, l2.name) := by
  induction ls with
  | nil => exact Or.inl rfl
  | cons l rest ih =>
    have hl := h l (List.mem_cons_self l rest)
    have hrest := ih (fun x hx => h x (List.mem_cons_of_mem l hx))
    simp only [winner]
    cases hw : winner f rest with
    | some r =>
      rcases hrest with hr | hr
      · rw [hw] at hr; exact absurd hr (by simp)
      · rw [hw] at hr
        injection hr with hr
        exact Or.inr (by simp [hr])
    | none =>
      rcases hl with hl | hl
      · simp [hl]
      · simp [hl.2, hl.1]

theorem winner_cons_absorb (f : String) (l2 : Layer) (a : Assignment)
    (ls : List Layer)
    (h2 : layerAssign l2 f = some a)
    (h : ∀ l ∈ ls, layerAssign l f = none ∨
      (l.name = l2.name ∧ layerAssign l f = some a)) :
    winner f (l2 :: ls) = some (a.value, l2.name) := by
  simp only [winner]
  rcases winner_absorb f l2 a ls h with hw | hw
  · simp [hw, h2]
  · simp [hw]

theorem winner_none_iff (f : String) (ls : List Layer) :
    winner f ls = none ↔ ∀ l ∈ ls, layerAssign l f = none := by
  induction ls with
  | nil => simp [winner]
  | cons l rest ih =>
    simp only [winner]
    constructor
    · intro h x hx
      cases hw : winner f rest with
      | some r => rw [hw] at h; exact absurd h (by simp)
      | none =>
        rw [hw] at h
        simp only at h
        rcases List.mem_cons.mp hx with hx | hx
        · subst hx
          cases hl : layerAssign x f with
          | some b => rw [hl] at h; exact absurd h (by simp)
          | none => rfl
        · exact (ih.mp hw) x hx
    · intro h
      have hrest : winner f rest = none :=
        ih.mpr (fun x hx => h x (List.mem_cons_of_mem l hx))
      rw [hrest]
      simp [h l (List.mem_cons_self l rest)]

theorem sortSession_perm (ss : Session) : List.Perm (sortSession ss) ss :=
  List.perm_insertionSort priLE ss

theorem sortSession_sorted (ss : Session) :
    List.Sorted priLE (sortSession ss) :=
  List.sorted_insertionSort priLE ss

theorem lookup_final_max (ss : Session) (l2 : Layer) (p2 : Int)
    (f : String) (a : Assignment)
    (hmem : (l2, p2) ∈ ss)
    (hassign : layerAssign l2 f = some a)
    (hmax : ∀ lp ∈ ss, lp ≠ (l2, p2) →
      layerAssign lp.1 f = none ∨ lp.2 < p2) :
    lookupEntry (finalConfig ss) f = some ⟨f, a.value, l2.name⟩ := by
  have hperm := sortSession_perm ss
  have hmem2 : (l2, p2) ∈ sortSession ss := hperm.mem_iff.mpr hmem
  obtain ⟨s, t, hst⟩ := List.append_of_mem hmem2
  have hsorted := sortSession_sorted ss
  rw [hst] at hsorted
  have hpair : ∀ x ∈ t, priLE (l2, p2) x := by
    have h1 := (List.pairwise_append.mp hsorted).2.1
    exact (List.pairwise_cons.mp h1).1
  have htmem : ∀ x ∈ t, x ∈ ss := by
    intro x hx
    exact hperm.mem_iff.mp (hst ▸ List.mem_append_right s
      (List.mem_cons_of_mem _ hx))
  have habs : ∀ l ∈ t.map Prod.fst, layerAssign l f = none ∨
      (l.name = l2.name ∧ layerAssign l f = some a) := by
    intro l hl
    obtain ⟨x, hx, hxl⟩ := List.mem_map.mp hl
    by_cases hxe : x = (l2, p2)
    · right
      rw [← hxl, hxe]
      exact ⟨rfl, hassign⟩
    · left
      rcases hmax x (htmem x hx) hxe with hn | hlt
      · rw [← hxl]; exact hn
      · exact absurd hlt (not_lt.mpr (hpair x hx))
  have hw : winner f ((sortSession ss).map Prod.fst) =
      some (a.value, l2.name) := by
    rw [hst]
    simp only [List.map_append, List.map_cons]
    rw [winner_append]
    rw [winner_cons_absorb f l2 a (t.map Prod.fst) hassign habs]
  unfold finalConfig
  rw [lookup_applyLayers, hw]

theorem resolve_ok_eq (excl : List (String × String)) (ss : Session)
    (cfg : Config) (h : resolve excl ss = .ok cfg) :
    cfg = finalConfig ss ∧ hasConflict excl (finalConfig ss) = false := by
  unfold resolve at h
  by_cases hc : hasConflict excl (finalConfig ss)
  · rw [if_pos hc] at h
    exact absurd h (by simp)
  · rw [if_neg hc] at h
    injection h with h
    exact ⟨h.symm, by simpa using hc⟩

theorem lookup_final_none_iff (ss : Session) (f : String) :
    lookupEntry (finalConfig ss) f = none ↔
      ∀ lp ∈ ss, layerAssign lp.1 f = none := by
  unfold finalConfig
  rw [lookup_applyLayers]
  constructor
  · intro h lp hlp
    cases hw : winner f ((sortSession ss).map Prod.fst) with
    | some r =>
      rw [hw] at h
      simp at h
    | none =>
      have hall := (winner_none_iff f _).mp hw
      exact hall lp.1 (List.mem_map.mpr
        ⟨lp, (sortSession_perm ss).mem_iff.mpr hlp, rfl⟩)
  · intro h
    have hw : winner f ((sortSession ss).map Prod.fst) = none := by
      apply (winner_none_iff f _).mpr
      intro l hl
      obtain ⟨x, hx, hxl⟩ := List.mem_map.mp hl
      exact hxl ▸ h x ((sortSession_perm ss).mem_iff.mp hx)
    rw [hw]
    rfl

theorem bothTruthy_iff (cfg : Config) (p : String × String) :
    bothTruthy cfg p = true ↔
      ∃ e1 e2 : Entry, lookupEntry cfg p.1 = some e1 ∧
        lookupEntry cfg p.2 = some e2 ∧
        truthy e1.value = true ∧ truthy e2.value = true := by
  unfold bothTruthy
  cases h1 : lookupEntry cfg p.1 with
  | none =>
    cases h2 : lookupEntry cfg p.2 with
    | none => simp
    | some e2 => simp
  | some e1 =>
    cases h2 : lookupEntry cfg p.2 with
    | none => simp
    | some e2 => simp [Bool.and_eq_true]

theorem clearFlag_sublist (cfg : Config) (f : String) :
    List.Sublist (clearFlag cfg f) cfg := by
  induction cfg with
  | nil => exact List.Sublist.refl []
  | cons e rest ih =>
    by_cases h : e.flag = f
    · simp only [clearFlag, if_pos h]
      exact ih.cons e
    · simp only [clearFlag, if_neg h]
      exact ih.cons₂ e

theorem not_mem_keys_clear (cfg : Config) (f : String) :
    f ∉ (clearFlag cfg f).map Entry.flag := by
  induction cfg with
  | nil => simp [clearFlag]
  | cons e rest ih =>
    by_cases h : e.flag = f
    · simpa [clearFlag, if_pos h] using ih
    · simp only [clearFlag, if_neg h, List.map_cons, List.mem_cons]
      intro hc
      rcases hc with hc | hc
      · exact h hc.symm
      · exact ih hc

theorem nodup_keys_applyAssignment (cfg : Config) (src : String)
    (a : Assignment) (h : (cfg.map Entry.flag).Nodup) :
    ((applyAssignment cfg src a).map Entry.flag).Nodup := by
  have hcfg1 : ∀ c : Config, (c.map Entry.flag).Nodup →
      ((clearFlag c a.flag ++ [(⟨a.flag, a.value, src⟩ : Entry)]).map
        Entry.flag).Nodup := by
    intro c hc
    rw [List.map_append]
    apply List.Nodup.append
    · exact ((clearFlag_sublist c a.flag).map Entry.flag).nodup hc
    · exact List.nodup_singleton a.flag
    · intro x hx hy
      simp only [List.map_cons, List.map_nil, List.mem_singleton] at hy
      subst hy
      exact not_mem_keys_clear c a.flag hx
  simp only [applyAssignment]
  by_cases hu : a.undefBeforeSet
  · rw [if_pos hu]
    exact hcfg1 (clearFlag cfg a.flag)
      (((clearFlag_sublist cfg a.flag).map Entry.flag).nodup h)
  · rw [if_neg hu]
    exact hcfg1 cfg h

theorem nodup_keys_applyLayer (cfg : Config) (l : Layer)
    (h : (cfg.map Entry.flag).Nodup) :
    ((applyLayer cfg l).map Entry.flag).Nodup := by
  unfold applyLayer
  induction l.assignments generalizing cfg with
  | nil => exact h
  | cons a rest ih =>
    simp only [List.foldl_cons]
    exact ih (applyAssignment cfg l.name a)
      (nodup_keys_applyAssignment cfg l.name a h)

theorem nodup_keys_applyLayers (cfg : Config) (ls : List Layer)
    (h : (cfg.map Entry.flag).Nodup) :
    ((applyLayers cfg ls).map Entry.flag).Nodup := by
  induction ls generalizing cfg with
  | nil => exact h
  | cons l rest ih =>
    simp only [applyLayers, List.foldl_cons]
    exact ih (applyLayer cfg l) (nodup_keys_applyLayer cfg l h)

theorem nodup_keys_finalConfig (ss : Session) :
    ((finalConfig ss).map Entry.flag).Nodup :=
  nodup_keys_applyLayers [] _ List.nodup_nil

theorem mem_applyAssignment (cfg : Config) (src : String) (a : Assignment)
    (e : Entry) (h : e ∈ applyAssignment cfg src a) :
    e ∈ cfg ∨ e.source = src := by
  simp only [applyAssignment] at h
  by_cases hu : a.undefBeforeSet
  · rw [if_pos hu] at h
    rcases List.mem_append.mp h with h | h
    · exact Or.inl ((clearFlag_sublist _ _).mem
        ((clearFlag_sublist _ _).mem h))
    · simp only [List.mem_singleton] at h
      subst h
      exact Or.inr rfl
  · rw [if_neg hu] at h
    rcases List.mem_append.mp h with h | h
    · exact Or.inl ((clearFlag_sublist _ _).mem h)
    · simp only [List.mem_singleton] at h
      subst h
      exact Or.inr rfl

theorem mem_applyAssigns (src : String) (as : List Assignment)
    (cfg : Config) (e : Entry)
    (h : e ∈ as.foldl (fun c a => applyAssignment c src a) cfg) :
    e ∈ cfg ∨ e.source = src := by
  induction as generalizing cfg with
  | nil => exact Or.inl h
  | cons a rest ih =>
    simp only [List.foldl_cons] at h
    rcases ih (applyAssignment cfg src a) h with h2 | h2
    · exact mem_applyAssignment cfg src a e h2
    · exact Or.inr h2

theorem mem_applyLayer (cfg : Config) (l : Layer) (e : Entry)
    (h : e ∈ applyLayer cfg l) : e ∈ cfg ∨ e.source = l.name :=
  mem_applyAssigns l.name l.assignments cfg e h

theorem mem_applyLayers (cfg : Config) (ls : List Layer) (e : Entry)
    (h : e ∈ applyLayers cfg ls) :
    e ∈ cfg ∨ ∃ l ∈ ls, e.source = l.name := by
  induction ls generalizing cfg with
  | nil => exact Or.inl h
  | cons l rest ih =>
    simp only [applyLayers, List.foldl_cons] at h
    rcases ih (applyLayer cfg l) h with h2 | h2
    · rcases mem_applyLayer cfg l e h2 with h3 | h3
      · exact Or.inl h3
      · exact Or.inr ⟨l, List.mem_cons_self l rest, h3⟩
    · obtain ⟨l2, hl2, hs⟩ := h2
      exact Or.inr ⟨l2, List.mem_cons_of_mem l hl2, hs⟩

theorem source_finalConfig (ss : Session) (e : Entry)
    (h : e ∈ finalConfig ss) : ∃ lp ∈ ss, e.source = lp.1.name := by
  unfold finalConfig at h
  rcases mem_applyLayers [] _ e h with h2 | h2
  · exact absurd h2 (List.not_mem_nil e)
  · obtain ⟨l, hl, hs⟩ := h2
    obtain ⟨x, hx, hxl⟩ := List.mem_map.mp hl
    exact ⟨x, (sortSession_perm ss).mem_iff.mp hx, hxl ▸ hs⟩

/-- Example base layer, with generic defaults in the manner of
pj/config_site_sample.h: auto-detected endianness and a generic flag. -/
def sampleLayer : Layer :=
  ⟨"sample", [⟨"PJ_IS_LITTLE_ENDIAN", .intVal 1, false⟩,
              ⟨"PJ_IS_BIG_ENDIAN", .intVal 0, false⟩,
              ⟨"PJ_HAS_TCP", .intVal 1, false⟩]⟩

/-- Example site override layer: assignments of config_site.h as layer
data, with the undef-before-set marker on the endianness pair (lines 12
to 15 of the source). -/
def siteLayer : Layer :=
  ⟨"site", [⟨"PJ_IS_LITTLE_ENDIAN", .intVal 1, true⟩,
            ⟨"PJ_IS_BIG_ENDIAN", .intVal 0, true⟩,
            ⟨"PJ_CONFIG_IPHONE", .intVal 1, false⟩,
            ⟨"PJMEDIA_HAS_VIDEO", .intVal 1, false⟩,
            ⟨"PJ_M_ARM", .intVal 1, false⟩]⟩

/-- A layer that leaves both mutually-exclusive endianness flags truthy. -/
def badLayer : Layer :=
  ⟨"bad", [⟨"PJ_IS_LITTLE_ENDIAN", .intVal 1, false⟩,
           ⟨"PJ_IS_BIG_ENDIAN", .intVal 1, false⟩]⟩

/-- The mutually-exclusive flag pair of the endianness example. -/
def endianExcl : List (String × String) :=
  [("PJ_IS_LITTLE_ENDIAN", "PJ_IS_BIG_ENDIAN")]

/-- Claim C1: for every flag that is assigned by two registered layers
with different priorities, where the higher-priority one is the
highest-priority layer assigning that flag, the value of that flag in
the ResolvedConfiguration produced by resolve equals the value assigned
by the layer with the higher priority: layers are applied in ascending
priority order, so later-applied layers win. -/
theorem priority_precedence
    (excl : List (String × String)) (ss : Session)
    (l1 l2 : Layer) (p1 p2 : Int) (f : String) (a1 a2 : Assignment)
    (cfg : Config)
    (_hm1 : (l1, p1) ∈ ss) (hm2 : (l2, p2) ∈ ss)
    (_hp : p1 < p2)
    (_ha1 : layerAssign l1 f = some a1)
    (ha2 : layerAssign l2 f = some a2)
    (hmax : ∀ lp ∈ ss, lp ≠ (l2, p2) →
      layerAssign lp.1 f = none ∨ lp.2 < p2)
    (hok : resolve excl ss = .ok cfg) :
    lookupEntry cfg f = some ⟨f, a2.value, l2.name⟩ := by
  obtain ⟨hcfg, -⟩ := resolve_ok_eq excl ss cfg hok
  rw [hcfg]
  exact lookup_final_max ss l2 p2 f a2 hm2 ha2 hmax

theorem priority_precedence_witness :
    lookupEntry (finalConfig [(sampleLayer, 0), (siteLayer, 1)])
        "PJ_IS_BIG_ENDIAN" =
      some ⟨"PJ_IS_BIG_ENDIAN", FlagValue.intVal 0, "site"⟩ :=
  priority_precedence endianExcl [(sampleLayer, 0), (siteLayer, 1)]
    sampleLayer siteLayer 0 1 "PJ_IS_BIG_ENDIAN"
    ⟨"PJ_IS_BIG_ENDIAN", .intVal 0, false⟩
    ⟨"PJ_IS_BIG_ENDIAN", .intVal 0, true⟩
    (finalConfig [(sampleLayer, 0), (siteLayer, 1)])
    (by decide) (by decide) (by decide) (by decide) (by decide)
    (by decide) rfl

/-- Claim C2: for every flag A, if the lower-priority layer of a
two-layer session assigns A and the higher-priority layer marks A as
undef-before-set and assigns a new value, then the value of A in the
ResolvedConfiguration is exactly the value of the higher-priority layer,
with no merge or combination with the old value. -/
theorem undef_before_set
    (excl : List (String × String)) (l1 l2 : Layer) (p1 p2 : Int)
    (f : String) (a1 : Assignment) (v2 : FlagValue) (cfg : Config)
    (hp : p1 < p2)
    (_ha1 : layerAssign l1 f = some a1)
    (ha2 : layerAssign l2 f = some ⟨f, v2, true⟩)
    (hok : resolve excl [(l1, p1), (l2, p2)] = .ok cfg) :
    lookupEntry cfg f = some ⟨f, v2, l2.name⟩ := by
  have hmax : ∀ lp ∈ [(l1, p1), (l2, p2)], lp ≠ (l2, p2) →
      layerAssign lp.1 f = none ∨ lp.2 < p2 := by
    intro lp hlp hne
    rcases List.mem_cons.mp hlp with h | h
    · rw [h]
      exact Or.inr hp
    · rcases List.mem_cons.mp h with h | h
      · exact absurd h hne
      · exact absurd h (List.not_mem_nil lp)
  obtain ⟨hcfg, -⟩ := resolve_ok_eq excl [(l1, p1), (l2, p2)] cfg hok
  rw [hcfg]
  exact lookup_final_max [(l1, p1), (l2, p2)] l2 p2 f ⟨f, v2, true⟩
    (by simp) ha2 hmax

theorem undef_before_set_witness :
    lookupEntry (finalConfig [(sampleLayer, 0), (siteLayer, 1)])
        "PJ_IS_LITTLE_ENDIAN" =
      some ⟨"PJ_IS_LITTLE_ENDIAN", FlagValue.intVal 1, "site"⟩ :=
  undef_before_set endianExcl sampleLayer siteLayer 0 1
    "PJ_IS_LITTLE_ENDIAN" ⟨"PJ_IS_LITTLE_ENDIAN", .intVal 1, false⟩
    (FlagValue.intVal 1)
    (finalConfig [(sampleLayer, 0), (siteLayer, 1)])
    (by decide) (by decide) (by decide) rfl

/-- Claim C3: resolve fails with ConflictingAssignment exactly when,
after all layers are applied, some pair of flags declared mutually
exclusive has both flags set to truthy values: the check is a single
structural validation pass over the final configuration, and a layer
sequence leaving at most one flag of every declared pair truthy succeeds
and returns the final configuration. -/
theorem exclusivity_validation
    (excl : List (String × String)) (ss : Session) :
    (resolve excl ss = .error .ConflictingAssignment ↔
      ∃ p ∈ excl, ∃ e1 e2 : Entry,
        lookupEntry (finalConfig ss) p.1 = some e1 ∧
        lookupEntry (finalConfig ss) p.2 = some e2 ∧
        truthy e1.value = true ∧ truthy e2.value = true) ∧
    ((∀ p ∈ excl, bothTruthy (finalConfig ss) p = false) →
      resolve excl ss = .ok (finalConfig ss)) := by
  constructor
  · unfold resolve
    by_cases hc : hasConflict excl (finalConfig ss)
    · rw [if_pos hc]
      simp only [true_iff]
      obtain ⟨p, hp, hb⟩ := List.any_eq_true.mp hc
      exact ⟨p, hp, (bothTruthy_iff (finalConfig ss) p).mp hb⟩
    · rw [if_neg hc]
      constructor
      · intro h
        exact absurd h (by simp)
      · intro ⟨p, hp, he⟩
        exact absurd (List.any_eq_true.mpr
          ⟨p, hp, (bothTruthy_iff (finalConfig ss) p).mpr he⟩) hc
  · intro h
    have hc : hasConflict excl (finalConfig ss) = false := by
      unfold hasConflict
      rw [List.any_eq_false]
      intro p hp
      simp [h p hp]
    simp [resolve, hc]

theorem exclusivity_validation_witness :
    (resolve endianExcl [(badLayer, 0)] =
        .error .ConflictingAssignment ↔
      ∃ p ∈ endianExcl, ∃ e1 e2 : Entry,
        lookupEntry (finalConfig [(badLayer, 0)]) p.1 = some e1 ∧
        lookupEntry (finalConfig [(badLayer, 0)]) p.2 = some e2 ∧
        truthy e1.value = true ∧ truthy e2.value = true) ∧
    ((∀ p ∈ endianExcl,
        bothTruthy (finalConfig [(badLayer, 0)]) p = false) →
      resolve endianExcl [(badLayer, 0)] =
        .ok (finalConfig [(badLayer, 0)])) :=
  exclusivity_validation endianExcl [(badLayer, 0)]

/-- Claim C4: resolution is deterministic and idempotent: for every
fixed ordered layer sequence, running resolve on it any number of times
yields identical results. -/
theorem resolve_deterministic
    (excl : List (String × String)) (ss : Session)
    (r1 r2 : Except ConfigError Config)
    (h1 : resolve excl ss = r1) (h2 : resolve excl ss = r2) : r1 = r2 :=
  h1.symm.trans h2

theorem resolve_deterministic_witness :
    resolve endianExcl [(sampleLayer, 0), (siteLayer, 1)] =
      resolve endianExcl [(sampleLayer, 0), (siteLayer, 1)] :=
  resolve_deterministic endianExcl [(sampleLayer, 0), (siteLayer, 1)]
    _ _ rfl rfl

/-- Claim C5: registerLayer fails with DuplicatePriority whenever a
second layer is registered with the priority value of an already
registered layer, and the failure occurs at registration time, before
any flag merging is performed. -/
theorem duplicate_priority (ss : Session) (l1 l2 : Layer) (p : Int)
    (ss2 : Session) (h : registerLayer ss l1 p = .ok ss2) :
    registerLayer ss2 l2 p = .error .DuplicatePriority := by
  unfold registerLayer at *
  by_cases hc : ss.any (fun e => e.2 == p)
  · rw [if_pos hc] at h
    exact absurd h (by simp)
  · rw [if_neg hc] at h
    injection h with h
    subst h
    have h2 : (ss ++ [(l1, p)]).any (fun e => e.2 == p) = true := by
      simp [List.any_append]
    rw [if_pos h2]

theorem duplicate_priority_witness :
    registerLayer [(sampleLayer, 0)] siteLayer 0 =
      .error .DuplicatePriority :=
  duplicate_priority [] sampleLayer siteLayer 0 [(sampleLayer, 0)] rfl

/-- Claim C6: when resolution fails, no partial ResolvedConfiguration is
returned: the error outcome of resolve carries no configuration at all. -/
theorem resolve_error_no_config (excl : List (String × String))
    (ss : Session) (e : ConfigError)
    (h : resolve excl ss = .error e) :
    ¬ ∃ cfg : Config, resolve excl ss = .ok cfg := by
  intro hc
  obtain ⟨cfg, hc⟩ := hc
  rw [h] at hc
  exact absurd hc (by simp)

theorem resolve_error_no_config_witness :
    ¬ ∃ cfg : Config, resolve endianExcl [(badLayer, 0)] = .ok cfg :=
  resolve_error_no_config endianExcl [(badLayer, 0)]
    .ConflictingAssignment rfl

/-- Claim C7: on a ResolvedConfiguration produced by a successful
resolve, getFlag fails with UnknownFlag exactly when no registered layer
ever assigned the flag and no default exists for it, and returns the
resolved value whenever the configuration holds an entry for the flag;
getFlag is a pure read on the configuration value. -/
theorem get_unknown_flag (excl : List (String × String)) (ss : Session)
    (defaults : List (String × FlagValue)) (cfg : Config) (f : String)
    (hok : resolve excl ss = .ok cfg) :
    (getFlag defaults cfg f = .error .UnknownFlag ↔
      (∀ lp ∈ ss, layerAssign lp.1 f = none) ∧
        defaults.find? (fun d => d.1 == f) = none) ∧
    (∀ e : Entry, lookupEntry cfg f = some e →
      getFlag defaults cfg f = .ok e.value) := by
  obtain ⟨hcfg, -⟩ := resolve_ok_eq excl ss cfg hok
  subst hcfg
  constructor
  · unfold getFlag
    cases hl : lookupEntry (finalConfig ss) f with
    | some e =>
      constructor
      · intro h
        exact absurd h (by simp)
      · intro hall
        have hn : lookupEntry (finalConfig ss) f = none :=
          (lookup_final_none_iff ss f).mpr hall.1
        rw [hl] at hn
        exact absurd hn (by simp)
    | none =>
      cases hd : defaults.find? (fun d => d.1 == f) with
      | some d =>
        constructor
        · intro h
          exact absurd h (by simp)
        · intro hall
          exact absurd hall.2 (by simp)
      | none =>
        constructor
        · intro _
          exact ⟨(lookup_final_none_iff ss f).mp hl, rfl⟩
        · intro _
          rfl
  · intro e he
    unfold getFlag
    rw [he]

theorem get_unknown_flag_witness :
    (getFlag [] (finalConfig [(sampleLayer, 0)]) "PJ_NOT_SET" =
        .error .UnknownFlag ↔
      (∀ lp ∈ ([(sampleLayer, 0)] : Session),
        layerAssign lp.1 "PJ_NOT_SET" = none) ∧
        List.find? (fun d => d.1 == "PJ_NOT_SET")
          ([] : List (String × FlagValue)) = none) ∧
    (∀ e : Entry,
      lookupEntry (finalConfig [(sampleLayer, 0)]) "PJ_NOT_SET" = some e →
      getFlag [] (finalConfig [(sampleLayer, 0)]) "PJ_NOT_SET" =
        .ok e.value) :=
  get_unknown_flag endianExcl [(sampleLayer, 0)] []
    (finalConfig [(sampleLayer, 0)]) "PJ_NOT_SET" rfl

/-- Claim C8: resolution does not lose unrelated base-layer flags: every
flag assigned by the base layer such that every other registered layer
either has lower priority or never assigns that flag (in particular no
higher-priority override layer assigns it or marks it undef-before-set)
appears in the ResolvedConfiguration with the value and source of the
base layer. -/
theorem base_flags_preserved (excl : List (String × String))
    (ss : Session) (lb : Layer) (pb : Int) (f : String) (a : Assignment)
    (cfg : Config)
    (hmem : (lb, pb) ∈ ss)
    (ha : layerAssign lb f = some a)
    (hothers : ∀ lp ∈ ss, lp ≠ (lb, pb) →
      layerAssign lp.1 f = none ∨ lp.2 < pb)
    (hok : resolve excl ss = .ok cfg) :
    lookupEntry cfg f = some ⟨f, a.value, lb.name⟩ := by
  obtain ⟨hcfg, -⟩ := resolve_ok_eq excl ss cfg hok
  rw [hcfg]
  exact lookup_final_max ss lb pb f a hmem ha hothers

theorem base_flags_preserved_witness :
    lookupEntry (finalConfig [(sampleLayer, 0), (siteLayer, 1)])
        "PJ_HAS_TCP" =
      some ⟨"PJ_HAS_TCP", FlagValue.intVal 1, "sample"⟩ :=
  base_flags_preserved endianExcl [(sampleLayer, 0), (siteLayer, 1)]
    sampleLayer 0 "PJ_HAS_TCP" ⟨"PJ_HAS_TCP", .intVal 1, false⟩
    (finalConfig [(sampleLayer, 0), (siteLayer, 1)])
    (by decide) (by decide) (by decide) rfl

/-- Claim C9: invariant of every ResolvedConfiguration produced by a
successful resolve: every flag present appears exactly once (so it has
exactly one recorded winning entry), and the recorded winning source of
every entry is the name of a registered layer, so no consumed flag is in
an undefined-but-referenced state. -/
theorem resolved_invariant (excl : List (String × String))
    (ss : Session) (cfg : Config)
    (hok : resolve excl ss = .ok cfg) :
    (cfg.map Entry.flag).Nodup ∧
      ∀ e ∈ cfg, ∃ lp ∈ ss, e.source = lp.1.name := by
  obtain ⟨hcfg, -⟩ := resolve_ok_eq excl ss cfg hok
  subst hcfg
  exact ⟨nodup_keys_finalConfig ss,
    fun e he => source_finalConfig ss e he⟩

theorem resolved_invariant_witness :
    ((finalConfig [(sampleLayer, 0), (siteLayer, 1)]).map
      Entry.flag).Nodup ∧
    ∀ e ∈ finalConfig [(sampleLayer, 0), (siteLayer, 1)],
      ∃ lp ∈ ([(sampleLayer, 0), (siteLayer, 1)] : Session),
        e.source = lp.1.name :=
  resolved_invariant endianExcl [(sampleLayer, 0), (siteLayer, 1)]
    (finalConfig [(sampleLayer, 0), (siteLayer, 1)]) rfl

end ConfigResolver

namespace ConfigSiteHeader

/-- Preprocessor state: the macros currently defined, as an association
list from macro name to replacement text. -/
abbrev PState := List (String × String)

/-- Whether a macro is currently defined. -/
def isDefined (s : PState) (n : String) : Bool :=
  s.any (fun d => decide (d.1 = n))

/-- The effect of an undef directive: remove any definition of the
macro. -/
def undefM : PState → String → PState
  | [], _ => []
  | d :: rest, n =>
    if d.1 = n then undefM rest n else d :: undefM rest n

/-- The effect of a define directive: the macro becomes defined with the
given replacement text. -/
def defineM (s : PState) (n v : String) : PState :=
  undefM s n ++ [(n, v)]

/-- The guard macro of config_site.h (lines 8 and 9 of the source). -/
def guardName : String := "__PJ_CONFIG_SITE_H__"

/-- The effect of the directives in the body of config_site.h (lines
11 to 36 of the source), translated directive by directive. `sample` is
the effect of the included pj/config_site_sample.h, whose content is not
part of this repository. -/
def configSiteBody (sample : PState → PState) (s : PState) : PState :=
  let s1 := undefM s "PJ_IS_LITTLE_ENDIAN"
  let s2 := undefM s1 "PJ_IS_BIG_ENDIAN"
  let s3 := defineM s2 "PJ_IS_LITTLE_ENDIAN" "1"
  let s4 := defineM s3 "PJ_IS_BIG_ENDIAN" "0"
  let s5 := defineM s4 "PJ_CONFIG_IPHONE" "1"
  let s6 := defineM s5 "PJMEDIA_HAS_VIDEO" "1"
  let s7 := defineM s6 "PJMEDIA_HAS_VID_TOOLBOX_CODEC" "1"
  let s8 := defineM s7 "PJ_HAS_SSL_SOCK" "1"
  let s9 := defineM s8 "PJ_SSL_SOCK_IMP" "PJ_SSL_SOCK_IMP_APPLE"
  let s10 := defineM s9 "PJ_OS_HAS_CHECK_STACK" "0"
  let s11 := defineM s10 "PJSIP_DONT_SWITCH_TO_TCP" "1"
  let s12 := defineM s11 "PJ_M_ARM" "1"
  sample s12

/-- Including config_site.h: the include guard (lines 8, 9 and 38 of the
source) makes the body run only when the guard macro is not yet defined;
the guard macro is defined before the body directives. -/
def includeConfigSite (sample : PState → PState) (s : PState) : PState :=
  if isDefined s guardName then s
  else configSiteBody sample (defineM s guardName "")

theorem isDefined_defineM_self (s : PState) (n v : String) :
    isDefined (defineM s n v) n = true := by
  simp [defineM, isDefined, List.any_append]

theorem isDefined_undefM_other (s : PState) (n m : String) (h : n ≠ m) :
    isDefined (undefM s m) n = isDefined s n := by
  induction s with
  | nil => rfl
  | cons d rest ih =>
    by_cases hd : d.1 = m
    · have hdn : d.1 ≠ n := by rw [hd]; exact fun hh => h hh.symm
      simp only [undefM, if_pos hd]
      rw [ih]
      simp [isDefined, List.any_cons, hdn]
    · simp only [undefM, if_neg hd, isDefined, List.any_cons]
      simp only [isDefined] at ih
      rw [ih]

theorem isDefined_defineM_mono (s : PState) (n m v : String)
    (h : isDefined s n = true) : isDefined (defineM s m v) n = true := by
  by_cases hnm : n = m
  · subst hnm
    exact isDefined_defineM_self s n v
  · have h2 : isDefined (undefM s m) n = true := by
      rw [isDefined_undefM_other s n m hnm]
      exact h
    simp only [defineM, isDefined, List.any_append] at *
    simp [h2]

theorem guard_survives_body (sample : PState → PState)
    (hs : ∀ t : PState, isDefined t guardName = true →
      isDefined (sample t) guardName = true)
    (s : PState) (h : isDefined s guardName = true) :
    isDefined (configSiteBody sample s) guardName = true := by
  unfold configSiteBody
  apply hs
  apply isDefined_defineM_mono
  apply isDefined_defineM_mono
  apply isDefined_defineM_mono
  apply isDefined_defineM_mono
  apply isDefined_defineM_mono
  apply isDefined_defineM_mono
  apply isDefined_defineM_mono
  apply isDefined_defineM_mono
  apply isDefined_defineM_mono
  apply isDefined_defineM_mono
  rw [isDefined_undefM_other _ _ _ (by decide)]
  rw [isDefined_undefM_other _ _ _ (by decide)]
  exact h

theorem includeConfigSite_of_defined (sample : PState → PState)
    (t : PState) (h : isDefined t guardName = true) :
    includeConfigSite sample t = t := by
  unfold includeConfigSite
  rw [if_pos h]

/-- Claim C10: applying the site override header twice in the same
inclusion state is the same as applying it once: the include guard makes
repeated inclusion a no-op after the first, so the resulting macro
definitions are identical to a single application. The hypothesis states
that the included sample header never undefines the guard macro of
config_site.h. -/
theorem include_guard_idem (sample : PState → PState)
    (hs : ∀ t : PState, isDefined t guardName = true →
      isDefined (sample t) guardName = true)
    (s : PState) :
    includeConfigSite sample (includeConfigSite sample s) =
      includeConfigSite sample s := by
  by_cases h : isDefined s guardName
  · have h1 : includeConfigSite sample s = s :=
      includeConfigSite_of_defined sample s h
    rw [h1]
    exact h1
  · have h1 : includeConfigSite sample s =
        configSiteBody sample (defineM s guardName "") := by
      unfold includeConfigSite
      rw [if_neg h]
    have h2 : isDefined (includeConfigSite sample s) guardName = true := by
      rw [h1]
      exact guard_survives_body sample hs (defineM s guardName "")
        (isDefined_defineM_self s guardName "")
    exact includeConfigSite_of_defined sample
      (includeConfigSite sample s) h2

theorem include_guard_idem_witness :
    includeConfigSite (fun t => t)
        (includeConfigSite (fun t => t) []) =
      includeConfigSite (fun t => t) [] :=
  include_guard_idem (fun t => t) (fun _ h => h) []

end ConfigSiteHeader
